import Mathlib

/-!
Verification of the QuickShellAssignment customer-list manager.

The development shallowly embeds the data-generation utilities
(src/utils/dataGenerator.js) and the application component logic
(src/App.jsx): record generation, the batched in-memory generator, the
batched IndexedDB populate loop, the startup orchestration of App.jsx
(initData), the search filter and the decorate-sort-undecorate engine.

Browser host functionality that the source merely calls out to
(Date parsing/formatting, Math.random) is modelled by explicit
parameters: a JsHost record of host functions and, per record, a
RandChoices record of the sampled values.  Every theorem quantifies over
these parameters, so nothing depends on a particular host behaviour.
-/

/-- Model of JavaScript String.prototype.toLowerCase (the source only ever
lowercases basic-latin text), mapping Char.toLower over the characters. -/
def toLowerCase (s : String) : String :=
  String.mk (s.data.map Char.toLower)

/-- Is q a leading segment of s?  Helper for the substring test. -/
def strHasPre : List Char → List Char → Bool
  | [], _ => true
  | _ :: _, [] => false
  | a :: qs, b :: ss => a == b && strHasPre qs ss

/-- Does s contain q as a contiguous run?  Helper for jsIncludes. -/
def strHasSub (q : List Char) : List Char → Bool
  | [] => strHasPre q []
  | b :: ss => strHasPre q (b :: ss) || strHasSub q ss

/-- Model of JavaScript String.prototype.includes: substring containment. -/
def jsIncludes (s q : String) : Bool :=
  strHasSub q.data s.data

/-- Avatar descriptor produced by generateAvatar (dataGenerator.js). -/
structure Avatar where
  initials : String
  color : String
deriving Repr, DecidableEq

/-- Customer record shape returned by generateCustomer (dataGenerator.js). -/
structure Customer where
  id : Nat
  name : String
  phone : String
  email : String
  score : Nat
  lastMessageAt : String
  addedBy : String
  avatar : Avatar
deriving Repr, DecidableEq

/-- The values drawn from Math.random while generating one customer.
Each field is an arbitrary natural; the generator reduces it into the
range the source draws from (Math.floor(Math.random() * n) lies in
[0, n)), so every possible run of the source corresponds to some
RandChoices and conversely. -/
structure RandChoices where
  rFirst : Nat
  rLast : Nat
  rDomain : Nat
  rArea : Nat
  rMid : Nat
  rLine : Nat
  rScore : Nat
  rDate : Nat
  rAddFirst : Nat
  rAddLast : Nat
  rColor : Nat
deriving Repr

/-- Browser host functions the source calls: Date.now, Date#toISOString
and Date parsing (new Date(s).getTime()).  Kept abstract; theorems hold
for every host. -/
structure JsHost where
  nowMs : Nat
  isoString : Nat → String
  dateToTime : String → Int

/-- firstNames pool (dataGenerator.js). -/
def firstNames : List String :=
  ["James", "Mary", "John", "Patricia", "Robert", "Jennifer", "Michael", "Linda",
   "William", "Barbara", "David", "Elizabeth", "Richard", "Susan", "Joseph", "Jessica",
   "Thomas", "Sarah", "Charles", "Karen", "Christopher", "Nancy", "Daniel", "Lisa",
   "Matthew", "Betty", "Anthony", "Margaret", "Mark", "Sandra", "Donald", "Ashley",
   "Steven", "Kimberly", "Paul", "Emily", "Andrew", "Donna", "Joshua", "Michelle"]

/-- lastNames pool (dataGenerator.js). -/
def lastNames : List String :=
  ["Smith", "Johnson", "Williams", "Brown", "Jones", "Garcia", "Miller", "Davis",
   "Rodriguez", "Martinez", "Hernandez", "Lopez", "Gonzalez", "Wilson", "Anderson", "Thomas",
   "Taylor", "Moore", "Jackson", "Martin", "Lee", "Perez", "Thompson", "White",
   "Harris", "Sanchez", "Clark", "Ramirez", "Lewis", "Robinson", "Walker", "Young"]

/-- domains pool (dataGenerator.js). -/
def domains : List String :=
  ["gmail.com", "yahoo.com", "hotmail.com", "outlook.com", "company.com"]

/-- avatarColors pool (dataGenerator.js). -/
def avatarColors : List String :=
  ["#FF6B6B", "#4ECDC4", "#45B7D1", "#FFA07A", "#98D8C8", "#F7DC6F", "#BB8FCE", "#85C1E2"]

/-- generatePhone (dataGenerator.js): area code and middle part in
[100, 999], line number in [1000, 9999], formatted "+1 (a) m-l". -/
def generatePhone (rc : RandChoices) : String :=
  let areaCode := rc.rArea % 900 + 100
  let midPart := rc.rMid % 900 + 100
  let lineNumber := rc.rLine % 9000 + 1000
  "+1 (" ++ toString areaCode ++ ") " ++ toString midPart ++ "-" ++ toString lineNumber

/-- Milliseconds in the two-year lookback window of generateDate. -/
def twoYearsMs : Nat := 2 * 365 * 24 * 60 * 60 * 1000

/-- generateDate (dataGenerator.js): a uniformly drawn instant in the two
years before host.nowMs, rendered to ISO form by the host. -/
def generateDate (host : JsHost) (rc : RandChoices) : String :=
  let twoYearsAgo := host.nowMs - twoYearsMs
  let randomTime := twoYearsAgo + rc.rDate % twoYearsMs
  host.isoString randomTime

/-- generateAvatar (dataGenerator.js): initials from the two names, color
drawn from the fixed palette. -/
def generateAvatar (rc : RandChoices) (firstName lastName : String) : Avatar :=
  { initials := String.mk (firstName.data.take 1) ++ String.mk (lastName.data.take 1)
    color := (avatarColors.getD (rc.rColor % avatarColors.length) "") }

/-- generateCustomer (dataGenerator.js): one fully populated record from a
numeric identifier and the drawn random values. -/
def generateCustomer (host : JsHost) (rc : RandChoices) (id : Nat) : Customer :=
  let firstName := firstNames.getD (rc.rFirst % firstNames.length) ""
  let lastName := lastNames.getD (rc.rLast % lastNames.length) ""
  let name := firstName ++ " " ++ lastName
  let email := toLowerCase firstName ++ "." ++ toLowerCase lastName ++ toString id
      ++ "@" ++ domains.getD (rc.rDomain % domains.length) ""
  let phone := generatePhone rc
  let score := rc.rScore % 100 + 1
  let lastMessageAt := generateDate host rc
  let addedBy := firstNames.getD (rc.rAddFirst % firstNames.length) "" ++ " "
      ++ lastNames.getD (rc.rAddLast % lastNames.length) ""
  let avatar := generateAvatar rc firstName lastName
  { id, name, phone, email, score, lastMessageAt, addedBy, avatar }

/-- Loop of the synchronous generateCustomersInMemory
(dataGenerator.js, first revision, lines 211-224): builds customers for
identifiers i, i+1, ..., count and fires the progress callback
(i, count) whenever i is a multiple of 10000.  Returns the customer
list and the list of progress-callback arguments, in call order. -/
def genMemRun (host : JsHost) (rho : Nat → RandChoices) (count : Nat)
    (i : Nat) : List Customer × List (Nat × Nat) :=
  if _h : i ≤ count then
    (generateCustomer host (rho i) i :: (genMemRun host rho count (i + 1)).1,
     (if i % 10000 = 0 then [(i, count)] else []) ++ (genMemRun host rho count (i + 1)).2)
  else ([], [])
termination_by count + 1 - i

/-- generateCustomersInMemory (first revision): the returned array. -/
def generateCustomersInMemory (host : JsHost) (rho : Nat → RandChoices)
    (count : Nat) : List Customer :=
  (genMemRun host rho count 1).1

/-- The sequence of (processed, total) progress-callback arguments of a
run of the synchronous generateCustomersInMemory. -/
def genMemProgress (host : JsHost) (rho : Nat → RandChoices)
    (count : Nat) : List (Nat × Nat) :=
  (genMemRun host rho count 1).2

/-- Loop of the batched generateCustomersInMemory (dataGenerator.js,
second revision, lines 483-511): windows [batchStart, batchEnd] with
batchEnd = min (batchStart + B - 1) count, advancing by B, until
batchStart exceeds count.  Returns per batch the identifier window and
the processed count (batchEnd) reported to onProgress.  The source fixes
B = 5000 (and positive); the guard 0 < B keeps the recursion total. -/
def genBatchLoop (count B batchStart : Nat) : List (List Nat) × List Nat :=
  if _h : batchStart ≤ count ∧ 0 < B then
    (List.range' batchStart (min (batchStart + B - 1) count + 1 - batchStart)
       :: (genBatchLoop count B (batchStart + B)).1,
     min (batchStart + B - 1) count :: (genBatchLoop count B (batchStart + B)).2)
  else ([], [])
termination_by count + 1 - batchStart

/-- generateCustomersInMemory (second revision): the batches handed to
onBatchComplete, as customer lists. -/
def genBatchedBatches (host : JsHost) (rho : Nat → RandChoices)
    (count : Nat) : List (List Customer) :=
  (genBatchLoop count 5000 1).1.map
    (fun w => w.map (fun i => generateCustomer host (rho i) i))

/-- generateCustomersInMemory (second revision): the (processed, total)
arguments of the onProgress calls. -/
def genBatchedProgress (count : Nat) : List (Nat × Nat) :=
  (genBatchLoop count 5000 1).2.map (fun p => (p, count))

/-- Loop of populateDatabase (dataGenerator.js, second revision, lines
368-421): batch index runs while batch * B < N (the JS test
batch < N / B on float division).  Each iteration generates the B
identifiers batch*B+1 .. batch*B+B; if the write transaction of that
batch fails (failAt = some batch) the whole populate aborts and neither
the batch nor its progress is reported.  On commit the processed count
(batch+1)*B is reported and the batch delivered.  Returns (batches,
processed counts, ok flag).  The source fixes N = 1000000, B = 5000. -/
def popBatchLoop (N B : Nat) (failAt : Option Nat) (batch : Nat) :
    List (List Nat) × List Nat × Bool :=
  if h : batch * B < N ∧ 0 < B then
    if failAt = some batch then ([], [], false)
    else
      (List.range' (batch * B + 1) B :: (popBatchLoop N B failAt (batch + 1)).1,
       ((batch + 1) * B) :: (popBatchLoop N B failAt (batch + 1)).2.1,
       (popBatchLoop N B failAt (batch + 1)).2.2)
  else ([], [], true)
termination_by N - batch * B
decreasing_by
  obtain ⟨h1, h2⟩ := h
  have hmul : (batch + 1) * B = batch * B + B := by
    rw [Nat.add_mul, Nat.one_mul]
  omega

/-- populateDatabase: the batches handed to onBatchComplete on a run
whose transactions fail exactly at failAt, as customer lists. -/
def populateBatches (host : JsHost) (rho : Nat → RandChoices)
    (failAt : Option Nat) : List (List Customer) :=
  (popBatchLoop 1000000 5000 failAt 0).1.map
    (fun w => w.map (fun i => generateCustomer host (rho i) i))

/-- populateDatabase: the (processed, total) onProgress arguments. -/
def populateProgress (failAt : Option Nat) : List (Nat × Nat) :=
  (popBatchLoop 1000000 5000 failAt 0).2.1.map (fun p => (p, 1000000))

/-- populateDatabase: whether the run completed without a transaction
error. -/
def populateOk (failAt : Option Nat) : Bool :=
  (popBatchLoop 1000000 5000 failAt 0).2.2

/-- Progress percentage computed by App.jsx from a progress callback:
Math.floor((processed / total) * 100). -/
def progressPct (processed total : Nat) : Nat :=
  processed * 100 / total

/-- filteredCustomers (App.jsx lines 255-267): an empty (falsy) debounced
query returns the customers array itself; otherwise the query is
lowercased once and a record is kept when the lowercased name, email or
phone contains it. -/
def filteredCustomers (customers : List Customer)
    (debouncedSearchTerm : String) : List Customer :=
  if debouncedSearchTerm = "" then customers
  else
    let searchLower := toLowerCase debouncedSearchTerm
    customers.filter (fun customer =>
      jsIncludes (toLowerCase customer.name) searchLower ||
      jsIncludes (toLowerCase customer.email) searchLower ||
      jsIncludes (toLowerCase customer.phone) searchLower)

/-- The closed set of sortable columns (App.jsx sortConfig.column). -/
inductive Column where
  | id
  | name
  | phone
  | email
  | score
  | lastMessageAt
  | addedBy
deriving Repr, DecidableEq

/-- Sort direction (App.jsx sortConfig.direction). -/
inductive Direction where
  | asc
  | desc
deriving Repr, DecidableEq

/-- sortConfig (App.jsx): active column and direction. -/
structure SortConfig where
  column : Column
  direction : Direction
deriving Repr, DecidableEq

/-- Runtime type of a precomputed comparison key: a number (id, score,
timestamp) or a string (lowercased text column). -/
inductive CompVal where
  | num (v : Int)
  | str (s : String)
deriving Repr, DecidableEq

/-- The decorate step of sortedCustomers (App.jsx lines 305-325):
numeric columns convert to a number once, the date column to a
timestamp via the host, every other column to a lowercased string. -/
def compareValue (host : JsHost) (column : Column) (customer : Customer) :
    CompVal :=
  match column with
  | .score => .num customer.score
  | .id => .num customer.id
  | .lastMessageAt => .num (host.dateToTime customer.lastMessageAt)
  | .name => .str (toLowerCase customer.name)
  | .phone => .str (toLowerCase customer.phone)
  | .email => .str (toLowerCase customer.email)
  | .addedBy => .str (toLowerCase customer.addedBy)

/-- JavaScript string comparison (code-unit lexicographic) on character
lists. -/
def strLtB : List Char → List Char → Bool
  | [], [] => false
  | [], _ :: _ => true
  | _ :: _, [] => false
  | a :: as, b :: bs => if a < b then true else if b < a then false else strLtB as bs

/-- JavaScript < on the precomputed keys.  Within one sort all keys have
the same runtime type (the column determines it); for keys of distinct
types JS < and > are both false (NaN comparison), modelled by false. -/
def ltVal : CompVal → CompVal → Bool
  | .num a, .num b => decide (a < b)
  | .str a, .str b => strLtB a.data b.data
  | .num _, .str _ => false
  | .str _, .num _ => false

/-- The comparator of sortedCustomers (App.jsx lines 331-339): minus one
or one when aVal < bVal, one or minus one when aVal > bVal (depending on
the direction), zero on ties. -/
def jsComparator (direction : Direction) (aVal bVal : CompVal) : Int :=
  if ltVal aVal bVal then (match direction with | .asc => -1 | .desc => 1)
  else if ltVal bVal aVal then (match direction with | .asc => 1 | .desc => -1)
  else 0

/-- sortedCustomers (App.jsx lines 297-350): decorate with precomputed
keys, stable-sort by the comparator (Array.prototype.sort is stable per
ECMA-262, modelled by List.mergeSort with "comparator ≤ 0"), then
undecorate. -/
def sortedCustomers (host : JsHost) (filtered : List Customer)
    (cfg : SortConfig) : List Customer :=
  let decorated := filtered.map
    (fun customer => (customer, compareValue host cfg.column customer))
  let sorted := decorated.mergeSort
    (fun a b => decide (jsComparator cfg.direction a.2 b.2 ≤ 0))
  sorted.map (fun item => item.1)

/-- Environment of one initData run (App.jsx lines 81-173): outcomes of
the store probes and operations, contents the store would return, and
whether in-memory generation succeeds (it only fails on resource
exhaustion).  The read-all result is an environment input because the
persistent store is an external collaborator surface. -/
structure StoreEnv where
  idbAvailable : Bool
  openOk : Bool
  countOk : Bool
  storedCount : Nat
  populateFailAt : Option Nat
  getAllOk : Bool
  storedCustomers : List Customer
  memGenOk : Bool

/-- Observable outcome of the try block of initData: how often each
store operation and the in-memory generator were invoked, the customers
state, the storage-mode flag, and the error that escaped (none when the
block completed). -/
structure TryOut where
  openCalls : Nat
  populateCalls : Nat
  readAllCalls : Nat
  genCalls : Nat
  customers : List Customer
  useMemoryStorage : Bool
  err : Option String

/-- The try block of initData (App.jsx lines 84-140): probe IndexedDB;
unavailable means the memory path (generate 1000000 records, done);
otherwise open the store, check population via the stored record count
(populated when count ≥ 1000000), populate when not populated, then
load every record with one getAll. -/
def initDataTry (env : StoreEnv) (host : JsHost) (rho : Nat → RandChoices) :
    TryOut :=
  if env.idbAvailable = false then
    if env.memGenOk then
      ⟨0, 0, 0, 1, generateCustomersInMemory host rho 1000000, true, none⟩
    else
      ⟨0, 0, 0, 1, [], true, some "Generation failed"⟩
  else if env.openOk = false then
    ⟨1, 0, 0, 0, [], false, some "IndexedDB error"⟩
  else if env.countOk = false then
    ⟨1, 0, 0, 0, [], false, some "Count error"⟩
  else if 1000000 ≤ env.storedCount then
    if env.getAllOk then
      ⟨1, 0, 1, 0, env.storedCustomers, false, none⟩
    else
      ⟨1, 0, 1, 0, [], false, some "Load error"⟩
  else
    if populateOk env.populateFailAt then
      if env.getAllOk then
        ⟨1, 1, 1, 0, env.storedCustomers, false, none⟩
      else
        ⟨1, 1, 1, 0, [], false, some "Load error"⟩
    else
      ⟨1, 1, 0, 0, [], false, some "Transaction error"⟩

/-- Terminal state of one initData run. -/
structure InitResult where
  openCalls : Nat
  populateCalls : Nat
  readAllCalls : Nat
  genCalls : Nat
  customers : List Customer
  error : Option String
  useMemoryStorage : Bool
  loading : Bool

/-- initData (App.jsx lines 81-173): run the try block; on success clear
loading.  On any escaped error record it, switch to memory storage and
fall back to one in-memory generation: success replaces the customers
and clears the recorded error (setError(null)); failure of the fallback
records the terminal message.  Loading always ends false. -/
def initData (env : StoreEnv) (host : JsHost) (rho : Nat → RandChoices) :
    InitResult :=
  let t := initDataTry env host rho
  match t.err with
  | none =>
      { openCalls := t.openCalls, populateCalls := t.populateCalls,
        readAllCalls := t.readAllCalls, genCalls := t.genCalls,
        customers := t.customers, error := none,
        useMemoryStorage := t.useMemoryStorage, loading := false }
  | some _msg =>
      if env.memGenOk then
        { openCalls := t.openCalls, populateCalls := t.populateCalls,
          readAllCalls := t.readAllCalls, genCalls := t.genCalls + 1,
          customers := generateCustomersInMemory host rho 1000000,
          error := none, useMemoryStorage := true, loading := false }
      else
        { openCalls := t.openCalls, populateCalls := t.populateCalls,
          readAllCalls := t.readAllCalls, genCalls := t.genCalls + 1,
          customers := t.customers,
          error := some "Failed to generate customer data",
          useMemoryStorage := true, loading := false }

/-- The Filter Engine contract as worded by the spec (section 4.5): keep
the records where the case-folded query is a substring of the
case-folded name, or of the case-folded email, or of the untransformed
phone display string; an empty query returns the working set. -/
def filterEnginePerSpec (W : List Customer) (q : String) : List Customer :=
  if q = "" then W
  else
    W.filter (fun c =>
      jsIncludes (toLowerCase c.name) (toLowerCase q) ||
      jsIncludes (toLowerCase c.email) (toLowerCase q) ||
      jsIncludes c.phone (toLowerCase q))

/-- The filter contract amended to match the code: the phone display
string is also case-folded before the substring test. -/
def filterEngineAmended (W : List Customer) (q : String) : List Customer :=
  if q = "" then W
  else
    W.filter (fun c =>
      jsIncludes (toLowerCase c.name) (toLowerCase q) ||
      jsIncludes (toLowerCase c.email) (toLowerCase q) ||
      jsIncludes (toLowerCase c.phone) (toLowerCase q))

/-- A total order on comparison keys used as a proof device: it agrees
with ltVal whenever both keys have the same runtime type (the only
comparisons a run of the sort ever performs) and orders numbers before
strings otherwise. -/
def goodLt : CompVal → CompVal → Bool
  | .num a, .num b => decide (a < b)
  | .str a, .str b => strLtB a.data b.data
  | .num _, .str _ => true
  | .str _, .num _ => false

/-- The stable order corresponding to the comparator, relative to goodLt. -/
def goodLe (direction : Direction) (a b : Customer × CompVal) : Bool :=
  match direction with
  | .asc => !goodLt b.2 a.2
  | .desc => !goodLt a.2 b.2

/-- Runtime type tag of a comparison key. -/
def CompVal.isNum : CompVal → Bool
  | .num _ => true
  | .str _ => false

/-- A concrete host for witness instantiations. -/
def host0 : JsHost :=
  { nowMs := 0, isoString := fun _ => "", dateToTime := fun _ => 0 }

/-- A concrete stream of random draws for witness instantiations. -/
def rho0 : Nat → RandChoices :=
  fun _ => ⟨0, 0, 0, 0, 0, 0, 0, 0, 0, 0, 0⟩

/-- Customer exhibiting the divergence between the spec wording and the
code on phone matching: the phone contains upper-case letters. -/
def cEx : Customer :=
  { id := 1, name := "X", phone := "AB", email := "X", score := 1,
    lastMessageAt := "", addedBy := "", avatar := { initials := "X", color := "" } }

/-- Environment where the capability probe fails (scenario of C3). -/
def envNoIdb : StoreEnv :=
  { idbAvailable := false, openOk := true, countOk := true, storedCount := 0,
    populateFailAt := none, getAllOk := true, storedCustomers := [],
    memGenOk := true }

/-- Environment where the store opens and is already populated
(scenario of C6). -/
def envPopulated : StoreEnv :=
  { idbAvailable := true, openOk := true, countOk := true,
    storedCount := 1000000, populateFailAt := none, getAllOk := true,
    storedCustomers := [cEx], memGenOk := true }

/-- Environment where the store open fails (a scenario of C7). -/
def envOpenFails : StoreEnv :=
  { idbAvailable := true, openOk := false, countOk := true, storedCount := 0,
    populateFailAt := none, getAllOk := true, storedCustomers := [],
    memGenOk := true }

/-- Two customers with equal name sort keys but distinct identifiers,
used to instantiate the stability statement. -/
def cW1 : Customer :=
  { id := 1, name := "A", phone := "1", email := "a", score := 1,
    lastMessageAt := "", addedBy := "", avatar := { initials := "A", color := "" } }

/-- Second customer sharing the name sort key of cW1. -/
def cW2 : Customer :=
  { id := 2, name := "A", phone := "2", email := "b", score := 2,
    lastMessageAt := "", addedBy := "", avatar := { initials := "A", color := "" } }

theorem generateCustomer_id (host : JsHost) (rc : RandChoices) (id : Nat) :
    (generateCustomer host rc id).id = id := rfl

theorem charToNat_ofNat_valid {n : Nat} (h : n.isValidChar) :
    (Char.ofNat n).toNat = n := by
  simp [Char.ofNat, h, Char.ofNatAux, Char.toNat, UInt32.toNat, BitVec.toNat_ofNatLt]

theorem toLower_toLower (c : Char) :
    Char.toLower (Char.toLower c) = Char.toLower c := by
  unfold Char.toLower
  by_cases h : c.toNat ≥ 65 ∧ c.toNat ≤ 90
  · rw [if_pos h]
    have hv : (c.toNat + 32).isValidChar := Or.inl (by omega)
    rw [if_neg]
    rw [charToNat_ofNat_valid hv]
    omega
  · rw [if_neg h, if_neg h]

theorem toLowerCase_idem (s : String) :
    toLowerCase (toLowerCase s) = toLowerCase s := by
  simp [toLowerCase, List.map_map, Function.comp_def, toLower_toLower]

theorem toLowerCase_eq_empty_iff (s : String) :
    toLowerCase s = "" ↔ s = "" := by
  cases s with
  | mk data =>
    cases data with
    | nil => simp [toLowerCase]
    | cons c cs =>
      constructor
      · intro h
        have := congrArg String.data h
        simp [toLowerCase] at this
      · intro h
        have := congrArg String.data h
        simp at this

/-- Claim C9: filtering with an empty or absent query returns the working
set itself, unchanged: the source returns the customers array without
constructing a new one. -/
theorem claim_C9_filter_empty_identity (W : List Customer) :
    filteredCustomers W "" = W := by
  simp [filteredCustomers]

/-- Claim C10: the filter output depends only on the case-folded query in
all three branches, the phone branch included, because the code also
case-folds the phone string before the substring test. -/
theorem claim_C10_filter_casefold_query (W : List Customer) (q : String) :
    filteredCustomers W q = filteredCustomers W (toLowerCase q) := by
  by_cases hq : q = ""
  · subst hq
    rfl
  · have hq2 : ¬ toLowerCase q = "" := fun h => hq ((toLowerCase_eq_empty_iff q).mp h)
    simp only [filteredCustomers, if_neg hq, if_neg hq2, toLowerCase_idem]

/-- Claim C4, counterexample: on a record whose phone display string
contains upper-case letters, the code (which lowercases the phone)
keeps the record while the spec wording (untransformed phone) drops it,
already for the lower-case query "b". -/
theorem claim_C4_counterexample :
    filteredCustomers [cEx] "b" ≠ filterEnginePerSpec [cEx] "b" := by decide

/-- Claim C4 as amended: the filter output is exactly the subsequence of
the working set whose case-folded name, case-folded email or case-folded
phone display string contains the case-folded query (insertion order
preserved as a subsequence of the input). -/
theorem claim_C4_filter_amended (W : List Customer) (q : String) :
    filteredCustomers W q = filterEngineAmended W q ∧
    List.Sublist (filteredCustomers W q) W := by
  refine ⟨rfl, ?_⟩
  by_cases h : q = "" <;>
    simp [filteredCustomers, h, List.filter_sublist]

theorem genMemRun_fst (host : JsHost) (rho : Nat → RandChoices) (count : Nat) :
    ∀ n i, n = count + 1 - i →
      (genMemRun host rho count i).1 =
        (List.range' i n).map (fun k => generateCustomer host (rho k) k) := by
  intro n
  induction n with
  | zero =>
    intro i h
    have hi : ¬ i ≤ count := by omega
    rw [genMemRun]
    simp [hi]
  | succ m ih =>
    intro i h
    have hi : i ≤ count := by omega
    rw [genMemRun]
    rw [List.range'_succ]
    simp only [dif_pos hi, List.map_cons, List.cons.injEq]
    exact ⟨trivial, ih (i + 1) (by omega)⟩

theorem generateCustomersInMemory_eq (host : JsHost) (rho : Nat → RandChoices)
    (count : Nat) :
    generateCustomersInMemory host rho count =
      (List.range' 1 count).map (fun k => generateCustomer host (rho k) k) := by
  have h := genMemRun_fst host rho count count 1 (by omega)
  simpa [generateCustomersInMemory] using h

theorem generateCustomersInMemory_length (host : JsHost)
    (rho : Nat → RandChoices) (count : Nat) :
    (generateCustomersInMemory host rho count).length = count := by
  rw [generateCustomersInMemory_eq]
  simp

theorem generateCustomersInMemory_ids (host : JsHost)
    (rho : Nat → RandChoices) (count : Nat) :
    (generateCustomersInMemory host rho count).map Customer.id =
      List.range' 1 count := by
  rw [generateCustomersInMemory_eq]
  rw [List.map_map]
  have : (Customer.id ∘ fun k => generateCustomer host (rho k) k) = fun k => k := by
    funext k
    rfl
  rw [this]
  exact List.map_id _

theorem genMemRun_snd_mem (host : JsHost) (rho : Nat → RandChoices) (count : Nat) :
    ∀ n i, n = count + 1 - i → ∀ p ∈ (genMemRun host rho count i).2,
      i ≤ p.1 ∧ p.1 ≤ count ∧ p.2 = count := by
  intro n
  induction n with
  | zero =>
    intro i h p hp
    have hi : ¬ i ≤ count := by omega
    rw [genMemRun] at hp
    simp [hi] at hp
  | succ m ih =>
    intro i h p hp
    have hi : i ≤ count := by omega
    rw [genMemRun] at hp
    simp only [dif_pos hi, List.mem_append] at hp
    rcases hp with hp | hp
    · by_cases hd : i % 10000 = 0
      · simp [hd] at hp
        subst hp
        exact ⟨Nat.le_refl i, hi, rfl⟩
      · simp [hd] at hp
    · have hrec := ih (i + 1) (by omega) p hp
      exact ⟨by omega, hrec.2.1, hrec.2.2⟩

theorem genMemRun_snd_pairwise (host : JsHost) (rho : Nat → RandChoices)
    (count : Nat) :
    ∀ n i, n = count + 1 - i →
      List.Pairwise (fun a b => a.1 < b.1) (genMemRun host rho count i).2 := by
  intro n
  induction n with
  | zero =>
    intro i h
    have hi : ¬ i ≤ count := by omega
    rw [genMemRun]
    simp [hi]
  | succ m ih =>
    intro i h
    have hi : i ≤ count := by omega
    rw [genMemRun]
    simp only [dif_pos hi]
    apply List.pairwise_append.mpr
    refine ⟨?_, ih (i + 1) (by omega), ?_⟩
    · by_cases hd : i % 10000 = 0 <;> simp [hd]
    · intro x hx y hy
      have hy2 := genMemRun_snd_mem host rho count (count + 1 - (i + 1)) (i + 1)
        rfl y hy
      by_cases hd : i % 10000 = 0
      · simp [hd] at hx
        subst hx
        omega
      · simp [hd] at hx

theorem genMemRun_snd_getLast (host : JsHost) (rho : Nat → RandChoices)
    (count : Nat) :
    ∀ n i, n = count + 1 - i → i ≤ count → count % 10000 = 0 →
      (genMemRun host rho count i).2.getLast? = some (count, count) := by
  intro n
  induction n with
  | zero =>
    intro i h hi hdiv
    omega
  | succ m ih =>
    intro i h hi hdiv
    rw [genMemRun]
    simp only [dif_pos hi]
    by_cases hic : i = count
    · have hcond : i % 10000 = 0 := by omega
      have hrest : (genMemRun host rho count (i + 1)).2 = [] := by
        have h2 : ¬ i + 1 ≤ count := by omega
        rw [genMemRun]
        simp [h2]
      rw [hrest, if_pos hcond]
      simp [hic]
    · have hrest := ih (i + 1) (by omega) (by omega) hdiv
      rw [List.getLast?_append, hrest]
      simp

theorem getLast?_cons_of_ne (a : α) {l : List α} (h : l ≠ []) :
    (a :: l).getLast? = l.getLast? := by
  cases l with
  | nil => exact absurd rfl h
  | cons b t => simp

theorem genBatchLoop_fst_flatten (count B s : Nat) (hB : 0 < B)
    (hs : s ≤ count + 1) :
    (genBatchLoop count B s).1.flatten = List.range' s (count + 1 - s) := by
  rw [genBatchLoop]
  by_cases hsc : s ≤ count
  · rw [dif_pos ⟨hsc, hB⟩]
    simp only [List.flatten_cons]
    by_cases hfull : s + B ≤ count
    · have hmin : min (s + B - 1) count = s + B - 1 := by omega
      have hrec := genBatchLoop_fst_flatten count B (s + B) hB (by omega)
      rw [hmin, hrec]
      have hlen : s + B - 1 + 1 - s = B := by omega
      rw [hlen]
      rw [List.range'_append_1 s B (count + 1 - (s + B))]
      congr 1
      omega
    · have hmin : min (s + B - 1) count = count := by omega
      have hrest : (genBatchLoop count B (s + B)).1 = [] := by
        rw [genBatchLoop, dif_neg (by omega)]
      rw [hmin, hrest]
      simp
  · rw [dif_neg (by omega)]
    have h0 : count + 1 - s = 0 := by omega
    rw [h0]
    rfl
termination_by count + 1 - s

theorem genBatchLoop_fst_lengths_getLast (count B s : Nat) (hB : 0 < B)
    (hs : s ≤ count) :
    ((genBatchLoop count B s).1.map List.length).getLast? =
      some (if (count + 1 - s) % B = 0 then B else (count + 1 - s) % B) := by
  rw [genBatchLoop, dif_pos ⟨hs, hB⟩]
  simp only [List.map_cons]
  by_cases hfull : s + B ≤ count
  · have hne : ((genBatchLoop count B (s + B)).1.map List.length) ≠ [] := by
      rw [genBatchLoop, dif_pos ⟨hfull, hB⟩]
      simp
    rw [getLast?_cons_of_ne _ hne]
    have hrec := genBatchLoop_fst_lengths_getLast count B (s + B) hB hfull
    rw [hrec]
    have heq : count + 1 - s = (count + 1 - (s + B)) + B := by omega
    rw [heq, Nat.add_mod_right]
  · have hmin : min (s + B - 1) count = count := by omega
    have hrest : (genBatchLoop count B (s + B)).1 = [] := by
      rw [genBatchLoop, dif_neg (by omega)]
    rw [hmin, hrest]
    simp only [List.map_nil, List.getLast?_singleton, List.length_range',
      Option.some.injEq]
    by_cases hq : count + 1 - s = B
    · rw [hq]
      simp [Nat.mod_self]
    · have hlt : (count + 1 - s) % B = count + 1 - s := Nat.mod_eq_of_lt (by omega)
      rw [hlt, if_neg (by omega)]
termination_by count + 1 - s

theorem genBatchLoop_snd_mem (count B : Nat) :
    ∀ s, ∀ x ∈ (genBatchLoop count B s).2, s ≤ x ∧ x ≤ count := by
  intro s x hx
  rw [genBatchLoop] at hx
  by_cases h : s ≤ count ∧ 0 < B
  · rw [dif_pos h] at hx
    rcases List.mem_cons.mp hx with hx | hx
    · subst hx
      constructor
      · have := Nat.min_le_left (s + B - 1) count
        omega
      · exact Nat.min_le_right _ _
    · have := genBatchLoop_snd_mem count B (s + B) x hx
      omega
  · rw [dif_neg h] at hx
    simp at hx
termination_by s => count + 1 - s

theorem genBatchLoop_snd_pairwise (count B : Nat) :
    ∀ s, List.Pairwise (fun a b => a < b) (genBatchLoop count B s).2 := by
  intro s
  rw [genBatchLoop]
  by_cases h : s ≤ count ∧ 0 < B
  · rw [dif_pos h]
    rw [List.pairwise_cons]
    refine ⟨?_, genBatchLoop_snd_pairwise count B (s + B)⟩
    intro x hx
    have hmem := genBatchLoop_snd_mem count B (s + B) x hx
    have := Nat.min_le_left (s + B - 1) count
    omega
  · rw [dif_neg h]
    simp
termination_by s => count + 1 - s

theorem genBatchLoop_snd_getLast (count B s : Nat) (hB : 0 < B)
    (hs : s ≤ count) :
    (genBatchLoop count B s).2.getLast? = some count := by
  rw [genBatchLoop, dif_pos ⟨hs, hB⟩]
  by_cases hfull : s + B ≤ count
  · have hne : (genBatchLoop count B (s + B)).2 ≠ [] := by
      rw [genBatchLoop, dif_pos ⟨hfull, hB⟩]
      simp
    rw [getLast?_cons_of_ne _ hne]
    exact genBatchLoop_snd_getLast count B (s + B) hB hfull
  · have hmin : min (s + B - 1) count = count := by omega
    have hrest : (genBatchLoop count B (s + B)).2 = [] := by
      rw [genBatchLoop, dif_neg (by omega)]
    rw [hmin, hrest]
    rfl
termination_by count + 1 - s

theorem succ_mul_le_of_dvd {N B batch : Nat} (hdvd : B ∣ N)
    (hlt : batch * B < N) : (batch + 1) * B ≤ N := by
  obtain ⟨k, hk⟩ := hdvd
  have hbk : batch < k := by
    by_contra hge
    push_neg at hge
    have hmono : B * k ≤ B * batch := Nat.mul_le_mul_left B hge
    have hc : batch * B = B * batch := Nat.mul_comm _ _
    omega
  have hstep : batch + 1 ≤ k := hbk
  calc (batch + 1) * B ≤ k * B := Nat.mul_le_mul_right B hstep
    _ = N := by rw [hk, Nat.mul_comm]

theorem popBatchLoop_flatten (N B : Nat) (hB : 0 < B) (hdvd : B ∣ N) :
    ∀ batch, batch * B ≤ N →
      (popBatchLoop N B none batch).1.flatten =
        List.range' (batch * B + 1) (N - batch * B) := by
  intro batch hle
  rw [popBatchLoop]
  by_cases hlt : batch * B < N
  · rw [dif_pos ⟨hlt, hB⟩, if_neg (by simp)]
    simp only [List.flatten_cons]
    have hmul : (batch + 1) * B = batch * B + B := by
      rw [Nat.add_mul, Nat.one_mul]
    have hnext : (batch + 1) * B ≤ N := succ_mul_le_of_dvd hdvd hlt
    have hrec := popBatchLoop_flatten N B hB hdvd (batch + 1) hnext
    rw [hrec]
    have harg : (batch + 1) * B + 1 = batch * B + 1 + B := by omega
    rw [harg]
    rw [List.range'_append_1 (batch * B + 1) B (N - (batch + 1) * B)]
    congr 1
    omega
  · rw [dif_neg (by omega)]
    have h0 : N - batch * B = 0 := by omega
    rw [h0]
    rfl
termination_by batch => N - batch * B
decreasing_by
  have hmul : (batch + 1) * B = batch * B + B := by
    rw [Nat.add_mul, Nat.one_mul]
  omega

theorem popBatchLoop_window_len (N B : Nat) (failAt : Option Nat) :
    ∀ batch, ∀ w ∈ (popBatchLoop N B failAt batch).1, w.length = B := by
  intro batch w hw
  rw [popBatchLoop] at hw
  by_cases h : batch * B < N ∧ 0 < B
  · rw [dif_pos h] at hw
    by_cases hf : failAt = some batch
    · rw [if_pos hf] at hw
      simp at hw
    · rw [if_neg hf] at hw
      rcases List.mem_cons.mp hw with hw | hw
      · subst hw
        exact List.length_range' _ _ _
      · exact popBatchLoop_window_len N B failAt (batch + 1) w hw
  · rw [dif_neg h] at hw
    simp at hw
termination_by batch => N - batch * B
decreasing_by
  have hmul : (batch + 1) * B = batch * B + B := by
    rw [Nat.add_mul, Nat.one_mul]
  omega

theorem popBatchLoop_snd_mem (N B : Nat) (failAt : Option Nat) :
    ∀ batch, ∀ x ∈ (popBatchLoop N B failAt batch).2.1, (batch + 1) * B ≤ x := by
  intro batch x hx
  rw [popBatchLoop] at hx
  by_cases h : batch * B < N ∧ 0 < B
  · rw [dif_pos h] at hx
    by_cases hf : failAt = some batch
    · rw [if_pos hf] at hx
      simp at hx
    · rw [if_neg hf] at hx
      rcases List.mem_cons.mp hx with hx | hx
      · omega
      · have hrec := popBatchLoop_snd_mem N B failAt (batch + 1) x hx
        have hmono : (batch + 1) * B ≤ (batch + 1 + 1) * B :=
          Nat.mul_le_mul_right B (by omega)
        omega
  · rw [dif_neg h] at hx
    simp at hx
termination_by batch => N - batch * B
decreasing_by
  have hmul : (batch + 1) * B = batch * B + B := by
    rw [Nat.add_mul, Nat.one_mul]
  omega

theorem popBatchLoop_snd_pairwise (N B : Nat) (failAt : Option Nat) :
    ∀ batch, List.Pairwise (fun a b => a < b) (popBatchLoop N B failAt batch).2.1 := by
  intro batch
  rw [popBatchLoop]
  by_cases h : batch * B < N ∧ 0 < B
  · rw [dif_pos h]
    by_cases hf : failAt = some batch
    · rw [if_pos hf]
      simp
    · rw [if_neg hf]
      rw [List.pairwise_cons]
      refine ⟨?_, popBatchLoop_snd_pairwise N B failAt (batch + 1)⟩
      intro x hx
      have hrec := popBatchLoop_snd_mem N B failAt (batch + 1) x hx
      have hmul : (batch + 1 + 1) * B = (batch + 1) * B + B := by
        rw [Nat.add_mul (batch + 1) 1 B, Nat.one_mul]
      have hB := h.2
      omega
  · rw [dif_neg h]
    simp
termination_by batch => N - batch * B
decreasing_by
  have hmul : (batch + 1) * B = batch * B + B := by
    rw [Nat.add_mul, Nat.one_mul]
  omega

theorem popBatchLoop_snd_getLast (N B : Nat) (hB : 0 < B) (hdvd : B ∣ N) :
    ∀ batch, batch * B < N →
      (popBatchLoop N B none batch).2.1.getLast? = some N := by
  intro batch hlt
  rw [popBatchLoop, dif_pos ⟨hlt, hB⟩, if_neg (by simp)]
  have hmul : (batch + 1) * B = batch * B + B := by
    rw [Nat.add_mul, Nat.one_mul]
  by_cases hm : (batch + 1) * B < N
  · have hne : (popBatchLoop N B none (batch + 1)).2.1 ≠ [] := by
      rw [popBatchLoop, dif_pos ⟨hm, hB⟩, if_neg (by simp)]
      simp
    rw [getLast?_cons_of_ne _ hne]
    exact popBatchLoop_snd_getLast N B hB hdvd (batch + 1) hm
  · have hend : (batch + 1) * B = N := by
      have := succ_mul_le_of_dvd hdvd hlt
      omega
    have hrest : (popBatchLoop N B none (batch + 1)).2.1 = [] := by
      rw [popBatchLoop, dif_neg (by omega)]
    rw [hrest, hend]
    rfl
termination_by batch => N - batch * B
decreasing_by
  have hmul2 : (batch + 1) * B = batch * B + B := by
    rw [Nat.add_mul, Nat.one_mul]
  omega

theorem popBatchLoop_ok_none (N B : Nat) :
    ∀ batch, (popBatchLoop N B none batch).2.2 = true := by
  intro batch
  rw [popBatchLoop]
  by_cases h : batch * B < N ∧ 0 < B
  · rw [dif_pos h, if_neg (by simp)]
    exact popBatchLoop_ok_none N B (batch + 1)
  · rw [dif_neg h]
termination_by batch => N - batch * B
decreasing_by
  have hmul : (batch + 1) * B = batch * B + B := by
    rw [Nat.add_mul, Nat.one_mul]
  omega

/-- Claim C1: for every total count N and batch size B the
batch-producing operations deliver every identifier in [1, N] exactly
once across the batch-ready callbacks (no duplicates, no gaps, batch
sizes summing to N), with the final window of the in-memory generator
truncated below B when B does not divide N; the populate loop (whose
source hard-codes N = 1000000, B = 5000 with B dividing N) delivers
[1, N] in full windows of exactly B whenever B divides N. -/
theorem claim_C1_batch_coverage (host : JsHost) (rho : Nat → RandChoices)
    (count B N : Nat) (hB : 0 < B) :
    ((genBatchLoop count B 1).1.flatten = List.range' 1 count ∧
      ((genBatchLoop count B 1).1.flatten).Nodup ∧
      ((genBatchLoop count B 1).1.map List.length).sum = count) ∧
    (¬ B ∣ count → 1 ≤ count →
      ((genBatchLoop count B 1).1.map List.length).getLast? = some (count % B) ∧
      count % B < B) ∧
    ((genBatchedBatches host rho count).flatten.map Customer.id =
      List.range' 1 count) ∧
    (B ∣ N → (popBatchLoop N B none 0).1.flatten = List.range' 1 N ∧
      (∀ w ∈ (popBatchLoop N B none 0).1, w.length = B)) ∧
    ((populateBatches host rho none).flatten.map Customer.id =
      List.range' 1 1000000) := by
  have hflat : (genBatchLoop count B 1).1.flatten = List.range' 1 count := by
    have h := genBatchLoop_fst_flatten count B 1 hB (by omega)
    have harith : count + 1 - 1 = count := by omega
    rwa [harith] at h
  have hflat5 : (genBatchLoop count 5000 1).1.flatten = List.range' 1 count := by
    have h := genBatchLoop_fst_flatten count 5000 1 (by omega) (by omega)
    have harith : count + 1 - 1 = count := by omega
    rwa [harith] at h
  refine ⟨⟨hflat, ?_, ?_⟩, ?_, ?_, ?_, ?_⟩
  · rw [hflat]
    exact List.nodup_range' 1 count
  · have := List.length_flatten (genBatchLoop count B 1).1
    rw [hflat] at this
    simp only [List.length_range'] at this
    omega
  · intro hndvd hpos
    have h := genBatchLoop_fst_lengths_getLast count B 1 hB hpos
    have harith : count + 1 - 1 = count := by omega
    rw [harith] at h
    have hmod : ¬ count % B = 0 := fun hz =>
      hndvd (Nat.dvd_iff_mod_eq_zero.mpr hz)
    rw [if_neg hmod] at h
    exact ⟨h, Nat.mod_lt count hB⟩
  · show ((genBatchLoop count 5000 1).1.map
      (fun w => w.map (fun i => generateCustomer host (rho i) i))).flatten.map
        Customer.id = List.range' 1 count
    rw [← List.map_flatten]
    rw [List.map_map]
    have hid : (Customer.id ∘ fun i => generateCustomer host (rho i) i) =
        fun i => i := rfl
    rw [hid, List.map_id', hflat5]
  · intro hdvd
    constructor
    · have h := popBatchLoop_flatten N B hB hdvd 0 (by simp)
      simpa using h
    · exact popBatchLoop_window_len N B none 0
  · show ((popBatchLoop 1000000 5000 none 0).1.map
      (fun w => w.map (fun i => generateCustomer host (rho i) i))).flatten.map
        Customer.id = List.range' 1 1000000
    rw [← List.map_flatten]
    rw [List.map_map]
    have hid : (Customer.id ∘ fun i => generateCustomer host (rho i) i) =
        fun i => i := rfl
    rw [hid, List.map_id']
    have h := popBatchLoop_flatten 1000000 5000 (by omega) (by decide) 0 (by simp)
    simpa using h

theorem claim_C1_batch_coverage_witness :
    0 < 3 ∧ ¬ (3 ∣ 7) ∧ (1 : Nat) ≤ 7 ∧ (3 : Nat) ∣ 6 ∧
    (genBatchLoop 7 3 1).1.flatten = List.range' 1 7 ∧
    ((genBatchLoop 7 3 1).1.map List.length).getLast? = some (7 % 3) ∧
    (popBatchLoop 6 3 none 0).1.flatten = List.range' 1 6 :=
  ⟨by decide, by decide, by decide, by decide,
   (claim_C1_batch_coverage host0 rho0 7 3 6 (by decide)).1.1,
   ((claim_C1_batch_coverage host0 rho0 7 3 6 (by decide)).2.1
     (by decide) (by decide)).1,
   ((claim_C1_batch_coverage host0 rho0 7 3 6 (by decide)).2.2.2.1
     (by decide)).1⟩

/-- Claim C2: on every run of the in-memory generators and of the
populate loop the processed counts passed to the progress callback are
monotonically non-decreasing, and the final reported processed count
equals the total (for the synchronous generator when 10000 divides the
total, as it does at its only call sites with total 1000000; for the
populate loop when B divides N, as with its hard-coded constants), so
the derived percentage ends at exactly 100. -/
theorem claim_C2_progress (host : JsHost) (rho : Nat → RandChoices)
    (count N B : Nat) (hB : 0 < B) :
    List.Pairwise (fun a b => a.1 ≤ b.1) (genMemProgress host rho count) ∧
    (0 < count → 10000 ∣ count →
      (genMemProgress host rho count).getLast? = some (count, count)) ∧
    List.Pairwise (fun a b => a.1 ≤ b.1) (genBatchedProgress count) ∧
    (0 < count → (genBatchedProgress count).getLast? = some (count, count)) ∧
    List.Pairwise (fun a b => a ≤ b) (popBatchLoop N B none 0).2.1 ∧
    (B ∣ N → 0 < N → (popBatchLoop N B none 0).2.1.getLast? = some N) ∧
    (populateProgress none).getLast? = some (1000000, 1000000) ∧
    (0 < N → progressPct N N = 100) := by
  refine ⟨?_, ?_, ?_, ?_, ?_, ?_, ?_, ?_⟩
  · exact (genMemRun_snd_pairwise host rho count count 1 (by omega)).imp
      Nat.le_of_lt
  · intro hpos hdvd
    exact genMemRun_snd_getLast host rho count count 1 (by omega) hpos (by omega)
  · show List.Pairwise (fun a b => a.1 ≤ b.1)
      ((genBatchLoop count 5000 1).2.map (fun p => (p, count)))
    rw [List.pairwise_map]
    exact (genBatchLoop_snd_pairwise count 5000 1).imp Nat.le_of_lt
  · intro hpos
    show ((genBatchLoop count 5000 1).2.map (fun p => (p, count))).getLast? =
      some (count, count)
    rw [List.getLast?_map]
    rw [genBatchLoop_snd_getLast count 5000 1 (by omega) hpos]
    rfl
  · exact (popBatchLoop_snd_pairwise N B none 0).imp Nat.le_of_lt
  · intro hdvd hpos
    exact popBatchLoop_snd_getLast N B hB hdvd 0 (by simpa using hpos)
  · show ((popBatchLoop 1000000 5000 none 0).2.1.map
      (fun p => (p, 1000000))).getLast? = some (1000000, 1000000)
    rw [List.getLast?_map]
    rw [popBatchLoop_snd_getLast 1000000 5000 (by omega) (by decide) 0 (by decide)]
    rfl
  · intro hpos
    show N * 100 / N = 100
    rw [Nat.mul_comm]
    exact Nat.mul_div_cancel 100 hpos

theorem claim_C2_progress_witness :
    0 < (20000 : Nat) ∧ (10000 : Nat) ∣ 20000 ∧
    (genMemProgress host0 rho0 20000).getLast? = some (20000, 20000) ∧
    (genBatchedProgress 20000).getLast? = some (20000, 20000) ∧
    (3 : Nat) ∣ 6 ∧ (popBatchLoop 6 3 none 0).2.1.getLast? = some 6 ∧
    progressPct 6 6 = 100 :=
  ⟨by decide, by decide,
   (claim_C2_progress host0 rho0 20000 6 3 (by decide)).2.1 (by decide) (by decide),
   (claim_C2_progress host0 rho0 20000 6 3 (by decide)).2.2.2.1 (by decide),
   by decide,
   (claim_C2_progress host0 rho0 20000 6 3 (by decide)).2.2.2.2.2.1
     (by decide) (by decide),
   (claim_C2_progress host0 rho0 20000 6 3 (by decide)).2.2.2.2.2.2.2 (by decide)⟩

theorem initDataTry_genCalls_zero (env : StoreEnv) (host : JsHost)
    (rho : Nat → RandChoices) (h : env.idbAvailable = true) :
    (initDataTry env host rho).genCalls = 0 := by
  rw [initDataTry]
  rw [if_neg (by simp [h])]
  by_cases h2 : env.openOk = false
  · rw [if_pos h2]
  · rw [if_neg h2]
    by_cases h3 : env.countOk = false
    · rw [if_pos h3]
    · rw [if_neg h3]
      by_cases h4 : 1000000 ≤ env.storedCount
      · rw [if_pos h4]
        by_cases h5 : env.getAllOk = true <;> simp [h5]
      · rw [if_neg h4]
        by_cases h6 : populateOk env.populateFailAt = true
        · rw [if_pos h6]
          by_cases h5 : env.getAllOk = true <;> simp [h5]
        · rw [if_neg h6]

/-- Claim C3: when the storage capability probe reports false, initData
never opens the store, ends in memory storage mode, and (the in-memory
generation succeeding, which only fails on resource exhaustion) the
final working set holds exactly the requested 1000000 records, with no
error and loading dismissed. -/
theorem claim_C3_memory_path (env : StoreEnv) (host : JsHost)
    (rho : Nat → RandChoices) (h1 : env.idbAvailable = false)
    (h2 : env.memGenOk = true) :
    (initData env host rho).openCalls = 0 ∧
    (initData env host rho).useMemoryStorage = true ∧
    (initData env host rho).customers.length = 1000000 ∧
    (initData env host rho).error = none ∧
    (initData env host rho).loading = false := by
  have htry : initDataTry env host rho =
      ⟨0, 0, 0, 1, generateCustomersInMemory host rho 1000000, true, none⟩ := by
    rw [initDataTry, if_pos h1, if_pos h2]
  rw [initData, htry]
  exact ⟨rfl, rfl, generateCustomersInMemory_length host rho 1000000, rfl, rfl⟩

theorem claim_C3_memory_path_witness :
    (initData envNoIdb host0 rho0).openCalls = 0 ∧
    (initData envNoIdb host0 rho0).useMemoryStorage = true ∧
    (initData envNoIdb host0 rho0).customers.length = 1000000 ∧
    (initData envNoIdb host0 rho0).error = none ∧
    (initData envNoIdb host0 rho0).loading = false :=
  claim_C3_memory_path envNoIdb host0 rho0 rfl rfl

/-- Claim C6: when the store opens and the population check reports the
store populated (stored count at least the expected total), initData
takes the loading path: populate is never invoked, exactly one read-all
is performed and its result becomes the working set. -/
theorem claim_C6_loading_path (env : StoreEnv) (host : JsHost)
    (rho : Nat → RandChoices) (h1 : env.idbAvailable = true)
    (h2 : env.openOk = true) (h3 : env.countOk = true)
    (h4 : 1000000 ≤ env.storedCount) (h5 : env.getAllOk = true) :
    (initData env host rho).populateCalls = 0 ∧
    (initData env host rho).readAllCalls = 1 ∧
    (initData env host rho).customers = env.storedCustomers ∧
    (initData env host rho).genCalls = 0 ∧
    (initData env host rho).error = none ∧
    (initData env host rho).loading = false := by
  have htry : initDataTry env host rho =
      ⟨1, 0, 1, 0, env.storedCustomers, false, none⟩ := by
    rw [initDataTry]
    rw [if_neg (by simp [h1]), if_neg (by simp [h2]), if_neg (by simp [h3]),
      if_pos h4, if_pos h5]
  rw [initData, htry]
  exact ⟨rfl, rfl, rfl, rfl, rfl, rfl⟩

theorem claim_C6_loading_path_witness :
    (initData envPopulated host0 rho0).populateCalls = 0 ∧
    (initData envPopulated host0 rho0).readAllCalls = 1 ∧
    (initData envPopulated host0 rho0).customers = envPopulated.storedCustomers ∧
    (initData envPopulated host0 rho0).genCalls = 0 ∧
    (initData envPopulated host0 rho0).error = none ∧
    (initData envPopulated host0 rho0).loading = false :=
  claim_C6_loading_path envPopulated host0 rho0 rfl rfl rfl (by decide) rfl

/-- Claim C7: when IndexedDB is available but some persistent-store step
of the try block fails (open, population check, populate transaction or
read-all), initData falls back to in-memory generation exactly once and
switches to memory storage; when that generation succeeds the recorded
error is cleared (none) and the working set holds the full 1000000
records; only when the generation itself also fails does a terminal
user-visible error remain. -/
theorem claim_C7_fallback_once (env : StoreEnv) (host : JsHost)
    (rho : Nat → RandChoices) (h1 : env.idbAvailable = true)
    (h2 : (initDataTry env host rho).err.isSome) :
    (initData env host rho).genCalls = 1 ∧
    (initData env host rho).useMemoryStorage = true ∧
    (initData env host rho).loading = false ∧
    (env.memGenOk = true →
      (initData env host rho).error = none ∧
      (initData env host rho).customers.length = 1000000) ∧
    (env.memGenOk = false →
      (initData env host rho).error = some "Failed to generate customer data") := by
  obtain ⟨msg, hmsg⟩ := Option.isSome_iff_exists.mp h2
  have hgen := initDataTry_genCalls_zero env host rho h1
  rw [initData, hmsg]
  by_cases hm : env.memGenOk = true
  · rw [hm]
    refine ⟨by simp [hgen], by simp, by simp, fun _ => ?_, fun hfalse => ?_⟩
    · exact ⟨by simp,
        by simpa using generateCustomersInMemory_length host rho 1000000⟩
    · simp at hfalse
  · have hmf : env.memGenOk = false := by
      revert hm
      cases env.memGenOk <;> simp
    rw [hmf]
    refine ⟨by simp [hgen], by simp, by simp, fun htrue => ?_, fun _ => by simp⟩
    simp at htrue

theorem claim_C7_fallback_once_witness :
    (initDataTry envOpenFails host0 rho0).err.isSome = true ∧
    (initData envOpenFails host0 rho0).genCalls = 1 ∧
    (initData envOpenFails host0 rho0).useMemoryStorage = true :=
  ⟨rfl,
   (claim_C7_fallback_once envOpenFails host0 rho0 rfl rfl).1,
   (claim_C7_fallback_once envOpenFails host0 rho0 rfl rfl).2.1⟩

theorem strLtB_irrefl : ∀ l : List Char, strLtB l l = false
  | [] => rfl
  | a :: as => by
    simp only [strLtB]
    rw [if_neg (lt_irrefl a), if_neg (lt_irrefl a)]
    exact strLtB_irrefl as

theorem strLtB_asymm : ∀ l m : List Char,
    strLtB l m = true → strLtB m l = false
  | [], [] => by simp [strLtB]
  | [], _ :: _ => fun _ => rfl
  | _ :: _, [] => by simp [strLtB]
  | a :: as, b :: bs => by
    simp only [strLtB]
    intro h
    by_cases hab : a < b
    · rw [if_neg (lt_asymm hab), if_pos hab]
    · rw [if_neg hab] at h
      by_cases hba : b < a
      · rw [if_pos hba] at h
        simp at h
      · rw [if_neg hba] at h
        rw [if_neg hba, if_neg hab]
        exact strLtB_asymm as bs h

theorem strLtB_connex : ∀ l m : List Char,
    strLtB l m = false → strLtB m l = false → l = m
  | [], [] => fun _ _ => rfl
  | [], _ :: _ => by simp [strLtB]
  | _ :: _, [] => by simp [strLtB]
  | a :: as, b :: bs => by
    simp only [strLtB]
    intro h1 h2
    by_cases hab : a < b
    · rw [if_pos hab] at h1
      simp at h1
    · by_cases hba : b < a
      · rw [if_pos hba] at h2
        simp at h2
      · rw [if_neg hab, if_neg hba] at h1
        have hchar : a = b := le_antisymm (not_lt.mp hba) (not_lt.mp hab)
        rw [if_neg hba, if_neg hab] at h2
        rw [hchar, strLtB_connex as bs h1 h2]

theorem strLtB_trans : ∀ l m k : List Char,
    strLtB l m = true → strLtB m k = true → strLtB l k = true
  | [], [], _ => by simp [strLtB]
  | [], _ :: _, [] => by simp [strLtB]
  | [], _ :: _, _ :: _ => fun _ _ => rfl
  | _ :: _, [], _ => by simp [strLtB]
  | _ :: _, _ :: _, [] => by simp [strLtB]
  | a :: as, b :: bs, c :: ks => by
    simp only [strLtB]
    intro h1 h2
    by_cases hab : a < b
    · by_cases hbc : b < c
      · rw [if_pos (lt_trans hab hbc)]
      · by_cases hcb : c < b
        · rw [if_neg hbc, if_pos hcb] at h2
          simp at h2
        · have hb : b = c := le_antisymm (not_lt.mp hcb) (not_lt.mp hbc)
          rw [← hb, if_pos hab]
    · by_cases hba : b < a
      · rw [if_neg hab, if_pos hba] at h1
        simp at h1
      · have ha : a = b := le_antisymm (not_lt.mp hba) (not_lt.mp hab)
        rw [if_neg hab, if_neg hba] at h1
        by_cases hbc : b < c
        · rw [ha, if_pos hbc]
        · by_cases hcb : c < b
          · rw [if_neg hbc, if_pos hcb] at h2
            simp at h2
          · rw [if_neg hbc, if_neg hcb] at h2
            rw [ha, if_neg hbc, if_neg hcb]
            exact strLtB_trans as bs ks h1 h2

theorem goodLt_irrefl : ∀ x : CompVal, goodLt x x = false
  | .num a => by simp [goodLt]
  | .str s => by simp [goodLt, strLtB_irrefl]

theorem goodLt_asymm : ∀ x y : CompVal,
    goodLt x y = true → goodLt y x = false
  | .num a, .num b => by
    simp [goodLt]
    omega
  | .num _, .str _ => fun _ => rfl
  | .str _, .num _ => by simp [goodLt]
  | .str a, .str b => by
    simp only [goodLt]
    exact strLtB_asymm a.data b.data

theorem goodLt_trans : ∀ x y z : CompVal,
    goodLt x y = true → goodLt y z = true → goodLt x z = true
  | .num a, .num b, .num c => by
    simp [goodLt]
    omega
  | .num _, .num _, .str _ => fun _ _ => rfl
  | .num _, .str _, .num _ => by simp [goodLt]
  | .num _, .str _, .str _ => fun _ _ => rfl
  | .str _, .num _, _ => by simp [goodLt]
  | .str _, .str _, .num _ => by simp [goodLt]
  | .str a, .str b, .str c => by
    simp only [goodLt]
    exact strLtB_trans a.data b.data c.data

theorem goodLt_connex : ∀ x y : CompVal,
    goodLt x y = false → goodLt y x = false → x = y
  | .num a, .num b => by
    simp [goodLt]
    omega
  | .num _, .str _ => by simp [goodLt]
  | .str _, .num _ => by simp [goodLt]
  | .str a, .str b => by
    simp only [goodLt]
    intro h1 h2
    have hdata := strLtB_connex a.data b.data h1 h2
    cases a
    cases b
    exact congrArg (fun l => CompVal.str (String.mk l)) hdata

theorem goodLt_false_trans (x y z : CompVal) (h1 : goodLt y x = false)
    (h2 : goodLt z y = false) : goodLt z x = false := by
  by_cases hzx : goodLt z x = true
  · by_cases hxy : goodLt x y = true
    · have := goodLt_trans z x y hzx hxy
      rw [this] at h2
      simp at h2
    · have hxyf : goodLt x y = false := by
        revert hxy
        cases goodLt x y <;> simp
      have heq := goodLt_connex x y hxyf h1
      rw [← heq] at h2
      rw [hzx] at h2
      simp at h2
  · revert hzx
    cases goodLt z x <;> simp

theorem goodLe_trans (d : Direction) (x y z : Customer × CompVal)
    (h1 : goodLe d x y = true) (h2 : goodLe d y z = true) :
    goodLe d x z = true := by
  cases d <;>
    simp only [goodLe, Bool.not_eq_true'] at h1 h2 ⊢
  · exact goodLt_false_trans x.2 y.2 z.2 h1 h2
  · exact goodLt_false_trans z.2 y.2 x.2 h2 h1

theorem goodLe_total (d : Direction) (x y : Customer × CompVal) :
    (goodLe d x y || goodLe d y x) = true := by
  cases d <;> simp only [goodLe]
  · by_cases h : goodLt y.2 x.2 = true
    · have := goodLt_asymm _ _ h
      simp [this]
    · have hf : goodLt y.2 x.2 = false := by
        revert h
        cases goodLt y.2 x.2 <;> simp
      simp [hf]
  · by_cases h : goodLt x.2 y.2 = true
    · have := goodLt_asymm _ _ h
      simp [this]
    · have hf : goodLt x.2 y.2 = false := by
        revert h
        cases goodLt x.2 y.2 <;> simp
      simp [hf]

theorem compareValue_isNum_eq (host : JsHost) (col : Column) (c d : Customer) :
    (compareValue host col c).isNum = (compareValue host col d).isNum := by
  cases col <;> rfl

theorem comparator_le_eq_goodLe (d : Direction) (x y : Customer × CompVal)
    (h : x.2.isNum = y.2.isNum) :
    decide (jsComparator d x.2 y.2 ≤ 0) = goodLe d x y := by
  obtain ⟨cx, vx⟩ := x
  obtain ⟨cy, vy⟩ := y
  cases vx with
  | num a =>
    cases vy with
    | num b =>
      cases d <;>
        simp only [jsComparator, ltVal, goodLe, goodLt] <;>
        by_cases hab : a < b <;>
        by_cases hba : b < a <;>
        simp [hab, hba] <;>
        omega
    | str t => simp [CompVal.isNum] at h
  | str s =>
    cases vy with
    | num b => simp [CompVal.isNum] at h
    | str t =>
      cases d <;>
        simp only [jsComparator, ltVal, goodLe, goodLt]
      · by_cases hst : strLtB s.data t.data = true
        · have hts := strLtB_asymm _ _ hst
          simp [hst, hts]
        · have hstf : strLtB s.data t.data = false := by
            revert hst
            cases strLtB s.data t.data <;> simp
          by_cases hts : strLtB t.data s.data = true
          · simp [hstf, hts]
          · have htsf : strLtB t.data s.data = false := by
              revert hts
              cases strLtB t.data s.data <;> simp
            simp [hstf, htsf]
      · by_cases hst : strLtB s.data t.data = true
        · have hts := strLtB_asymm _ _ hst
          simp [hst, hts]
        · have hstf : strLtB s.data t.data = false := by
            revert hst
            cases strLtB s.data t.data <;> simp
          by_cases hts : strLtB t.data s.data = true
          · simp [hstf, hts]
          · have htsf : strLtB t.data s.data = false := by
              revert hts
              cases strLtB t.data s.data <;> simp
            simp [hstf, htsf]

theorem mergeSort_congr {α : Type} {le le2 : α → α → Bool} {l : List α}
    (h : ∀ a ∈ l, ∀ b ∈ l, le a b = le2 a b) :
    l.mergeSort le = l.mergeSort le2 := by
  have hm := List.map_mergeSort (f := @id α) (r := le) (s := le2) (l := l)
    (fun a ha b hb => h a ha b hb)
  simpa using hm

/-- Claim C5: for every filtered view V and every sort directive (column
in the enumerated set, direction ascending or descending), the sort
engine returns a permutation of V, and the sort is stable: two records
with equal precomputed comparison keys on the active column keep their
relative order from V in the output. -/
theorem claim_C5_sort_perm_stable (host : JsHost) (V : List Customer)
    (cfg : SortConfig) :
    List.Perm (sortedCustomers host V cfg) V ∧
    (∀ a b : Customer,
      compareValue host cfg.column a = compareValue host cfg.column b →
      List.Sublist [a, b] V →
      List.Sublist [a, b] (sortedCustomers host V cfg)) := by
  have hundec : ((fun item : Customer × CompVal => item.1) ∘
      (fun c => (c, compareValue host cfg.column c))) = fun c : Customer => c := rfl
  constructor
  · have hperm := List.mergeSort_perm
      (V.map (fun c => (c, compareValue host cfg.column c)))
      (fun a b => decide (jsComparator cfg.direction a.2 b.2 ≤ 0))
    have h2 := hperm.map (fun item : Customer × CompVal => item.1)
    rw [List.map_map, hundec, List.map_id'] at h2
    exact h2
  · intro a b hkey hsub
    have hcongr : (V.map (fun c => (c, compareValue host cfg.column c))).mergeSort
          (fun x y => decide (jsComparator cfg.direction x.2 y.2 ≤ 0)) =
        (V.map (fun c => (c, compareValue host cfg.column c))).mergeSort
          (goodLe cfg.direction) := by
      apply mergeSort_congr
      intro x hx y hy
      obtain ⟨cx, hcx, hx2⟩ := List.mem_map.mp hx
      obtain ⟨cy, hcy, hy2⟩ := List.mem_map.mp hy
      apply comparator_le_eq_goodLe
      rw [← hx2, ← hy2]
      exact compareValue_isNum_eq host cfg.column cx cy
    have hpair : List.Sublist
        [(a, compareValue host cfg.column a), (b, compareValue host cfg.column b)]
        (V.map (fun c => (c, compareValue host cfg.column c))) :=
      List.Sublist.map (fun c => (c, compareValue host cfg.column c)) hsub
    have hgoodab : goodLe cfg.direction
        (a, compareValue host cfg.column a)
        (b, compareValue host cfg.column b) = true := by
      cases hd : cfg.direction <;>
        simp only [goodLe] <;>
        rw [hkey] <;>
        simp [goodLt_irrefl]
    have hstable := List.pair_sublist_mergeSort
      (goodLe_trans cfg.direction) (goodLe_total cfg.direction) hgoodab hpair
    rw [← hcongr] at hstable
    have hmap := hstable.map (fun item : Customer × CompVal => item.1)
    exact hmap

theorem claim_C5_sort_perm_stable_witness :
    compareValue host0 Column.name cW1 = compareValue host0 Column.name cW2 ∧
    List.Sublist [cW1, cW2] [cW1, cW2] ∧
    List.Sublist [cW1, cW2]
      (sortedCustomers host0 [cW1, cW2] ⟨Column.name, Direction.asc⟩) :=
  ⟨by decide, List.Sublist.refl _,
   (claim_C5_sort_perm_stable host0 [cW1, cW2]
     ⟨Column.name, Direction.asc⟩).2 cW1 cW2 (by decide) (List.Sublist.refl _)⟩

/-- Claim C8: sorting a working set generated with identifiers 1..N by
the id column ascending returns the records unchanged, in identifier
order 1, 2, ..., N. -/
theorem claim_C8_sort_id_roundtrip (host : JsHost) (rho : Nat → RandChoices)
    (N : Nat) :
    sortedCustomers host (generateCustomersInMemory host rho N)
        ⟨Column.id, Direction.asc⟩ =
      generateCustomersInMemory host rho N ∧
    (sortedCustomers host (generateCustomersInMemory host rho N)
        ⟨Column.id, Direction.asc⟩).map Customer.id = List.range' 1 N := by
  have hpw : List.Pairwise
      (fun x y : Customer × CompVal =>
        decide (jsComparator Direction.asc x.2 y.2 ≤ 0) = true)
      ((generateCustomersInMemory host rho N).map
        (fun c => (c, compareValue host Column.id c))) := by
    rw [List.pairwise_map]
    rw [generateCustomersInMemory_eq, List.pairwise_map]
    apply (List.pairwise_lt_range' 1 N).imp
    intro i j hij
    have hlt : ltVal (CompVal.num i) (CompVal.num j) = true := by
      simp only [ltVal, decide_eq_true_eq]
      exact_mod_cast hij
    simp [jsComparator, compareValue, generateCustomer_id, hlt]
  have hsorted := List.mergeSort_of_sorted hpw
  have hundec : ((fun item : Customer × CompVal => item.1) ∘
      (fun c => (c, compareValue host Column.id c))) = fun c : Customer => c := rfl
  constructor
  · show (((generateCustomersInMemory host rho N).map
        (fun c => (c, compareValue host Column.id c))).mergeSort
        (fun a b => decide (jsComparator Direction.asc a.2 b.2 ≤ 0))).map
        (fun item => item.1) = generateCustomersInMemory host rho N
    rw [hsorted, List.map_map, hundec, List.map_id']
  · show ((((generateCustomersInMemory host rho N).map
        (fun c => (c, compareValue host Column.id c))).mergeSort
        (fun a b => decide (jsComparator Direction.asc a.2 b.2 ≤ 0))).map
        (fun item => item.1)).map Customer.id = List.range' 1 N
    rw [hsorted, List.map_map, List.map_map]
    have hcomp : ((Customer.id ∘ fun item : Customer × CompVal => item.1) ∘
        fun c => (c, compareValue host Column.id c)) = Customer.id := rfl
    rw [hcomp]
    exact generateCustomersInMemory_ids host rho N

theorem initDataTry_err_isSome_iff (env : StoreEnv) (host : JsHost)
    (rho : Nat → RandChoices) (h : env.idbAvailable = true) :
    (initDataTry env host rho).err.isSome = true ↔
      (env.openOk = false ∨ env.countOk = false ∨
        (env.storedCount < 1000000 ∧ populateOk env.populateFailAt = false) ∨
        env.getAllOk = false) := by
  rw [initDataTry, if_neg (by simp [h])]
  by_cases h2 : env.openOk = false
  · simp [h2]
  · rw [if_neg h2]
    by_cases h3 : env.countOk = false
    · simp [h2, h3]
    · rw [if_neg h3]
      by_cases h4 : 1000000 ≤ env.storedCount
      · rw [if_pos h4]
        by_cases h5 : env.getAllOk = true
        · simp [h2, h3, h5]
          omega
        · have h5f : env.getAllOk = false := by
            revert h5
            cases env.getAllOk <;> simp
          simp [h5f]
      · rw [if_neg h4]
        by_cases h6 : populateOk env.populateFailAt = true
        · rw [if_pos h6]
          by_cases h5 : env.getAllOk = true
          · simp [h2, h3, h5, h6]
          · have h5f : env.getAllOk = false := by
              revert h5
              cases env.getAllOk <;> simp
            simp [h5f]
        · have h6f : populateOk env.populateFailAt = false := by
            revert h6
            cases populateOk env.populateFailAt <;> simp
          rw [if_neg h6]
          simp [h6f]
          omega
